import Mathlib

/-!
Verification of the connection-bootstrap and resource-lifecycle subsystem of
the rdma-experiments repository (src/Verbs.hpp) against its design document.

The repository ships only the class declaration (Verbs.hpp); the member
function bodies live in a translation unit that is not part of src/.  Where a
function body is missing, its behaviour is modelled from the design document
(spec.md) and the modelling definition carries a doc comment starting with
`Modelled from the spec:`.  Everything that the header itself decides (the
compile-time queue constants, the constructor default arguments, the
delegation of finalize to finalize_device and of the destructor to finalize)
is embedded directly from the header.
-/

namespace Verbs

/-! ### Compile-time constants (Verbs.hpp lines 56-67) -/

def completion_queue_depth : Nat := 256

def send_queue_depth : Nat := 16

def receive_queue_depth : Nat := 1

def scatter_gather_element_count : Nat := 1

def max_inline_data : Nat := 16

def max_dest_rd_atomic : Nat := 16

def max_rd_atomic : Nat := 16

def min_rnr_timer : Nat := 0x12

def ack_timeout : Nat := 0x12

def retry_count : Nat := 6

def rnr_retry : Nat := 0

/-! ### Endpoint record (Verbs.hpp lines 73-77) -/

/-- Per-remote-rank record: InfiniBand address of the node (uint16_t lid),
queue pair number on that node (uint32_t qp_num), and the owned queue pair
handle.  Machine integers are modelled as Nat; the header never computes with
them, it only stores and exchanges them. -/
structure Endpoint where
  lid : Nat
  qp_num : Nat
  queue_pair : Nat
deriving DecidableEq, Repr

/-- The pair of identifiers a process publishes for one of its queue pairs
during the handshake: link-layer address and queue-pair number. -/
structure QPAddress where
  lid : Nat
  qp_num : Nat
deriving DecidableEq, Repr

/-! ### Error taxonomy (spec section 7) -/

inductive VerbsError where
  | DeviceNotFound
  | PortUnavailable
  | QueuePairTransitionFailed
  | RegistrationFailed
  | QueueFull
  | UnknownRank
deriving DecidableEq, Repr

/-! ### Device selection (claim C10) -/

/-- A locally visible RDMA-capable adapter, reduced to what selection needs:
its name and its number of ports. -/
structure Device where
  name : String
  ports : Nat
deriving DecidableEq, Repr

/-- The MPIConnection handed to the constructor: total process count and the
per-node grouping, which is all the bootstrap consumes from MPI besides the
exchange and barrier primitives. -/
structure MPIConnection where
  size : Nat
  node_sizes : List Nat
deriving DecidableEq, Repr

/-- Modelled from the spec: the body of Verbs::initialize_device is not under
src/.  Section 4.1: select enumerates all locally visible adapters, fails with
DeviceNotFound if none match the desired name, and fails with PortUnavailable
if the selected device has fewer ports than the desired port. -/
def select (devices : List Device) (desired_name : String) (desired_port : Nat) :
    Except VerbsError (Device × Nat) :=
  match devices.find? (fun d => d.name == desired_name) with
  | none => .error .DeviceNotFound
  | some d =>
      if desired_port = 0 ∨ d.ports < desired_port then .error .PortUnavailable
      else .ok (d, desired_port)

/-- The constructor (Verbs.hpp lines 97-114) forwards the desired device name
and port to initialize_device; only the selection outcome matters here.  The
MPIConnection argument is kept because the constructor takes it, but the
header passes only the name and port on to device selection. -/
def construct (_m : MPIConnection) (devices : List Device)
    (desired_device_name : String) (desired_port : Nat) :
    Except VerbsError (Device × Nat) :=
  select devices desired_device_name desired_port

/-- Calling the constructor without a device name and port uses the default
arguments declared in the header (Verbs.hpp line 97): device name mlx4_0 and
port 1. -/
def construct_default (m : MPIConnection) (devices : List Device) :
    Except VerbsError (Device × Nat) :=
  construct m devices "mlx4_0" 1

/-! ### Completion polling (claim C5) -/

/-- Outcome of one completed operation, as reported in a completion-queue
entry: success or a failure kind (spec section 4.7). -/
inductive Outcome where
  | success
  | failure (reason : Nat)
deriving DecidableEq, Repr

/-- Modelled from the spec: the body of Verbs::poll is not under src/.
Sections 4.7 and 5: poll (max_entries) drains at most max_entries outcome
records from the shared completion queue, returns how many it consumed, and
is a total, immediately returning function: with an empty queue it consumes
nothing and returns 0.  The completion queue is modelled as the list of ready
outcome records, oldest first. -/
def poll (cq : List Outcome) (max_entries : Nat) : Nat × List Outcome :=
  ((cq.take max_entries).length, cq.drop max_entries)

/-! ### Queue pair bootstrap (claims C1 and C2) -/

/-- One collective run of the job, as the bootstrap sees it: the process
count, the link-layer address (lid) of the node hosting each process, and the
queue-pair number that each process assigns to the queue pair it creates for
each peer. -/
structure Job where
  n : Nat
  lid : Nat → Nat
  qpn : Nat → Nat → Nat

/-- The address record process p publishes for its queue pair toward peer q
during the handshake: its own lid and the number of that queue pair. -/
def published (J : Job) (p q : Nat) : QPAddress :=
  ⟨J.lid p, J.qpn p q⟩

/-- Modelled from the spec: the body of Verbs::connect_queue_pairs is not
under src/.  Section 4.4 step 2: the coordination service performs a reliable
symmetric pairwise exchange, so what process p receives about peer q is
exactly what q published toward p. -/
def exchange (J : Job) (p q : Nat) : QPAddress :=
  published J q p

/-- Modelled from the spec: the endpoints vector a successful bootstrap
leaves in process p, one Endpoint per global rank, the entry at index q
holding the lid and qp_num received from q together with the locally owned
queue pair toward q. -/
def endpointsOf (J : Job) (p : Nat) : List Endpoint :=
  (List.range J.n).map fun q =>
    { lid := (exchange J p q).lid, qp_num := (exchange J p q).qp_num, queue_pair := J.qpn p q }

/-- The address part of what process p stores at index q of its endpoints
vector, if that index exists. -/
def stored (J : Job) (p q : Nat) : Option QPAddress :=
  ((endpointsOf J p)[q]?).map fun e => ⟨e.lid, e.qp_num⟩

/-- The four hardware states of the strict linear queue pair state machine
(spec section 4.4 step 3). -/
inductive QPState where
  | Reset
  | Init
  | RTR
  | RTS
deriving DecidableEq, Repr

/-- Modelled from the spec: one modify-queue-pair request.  A transition is
accepted only from the state immediately preceding the target in the chain
Reset to Init to RTR to RTS, and only when the supplied attributes are
consistent; otherwise it fails with QueuePairTransitionFailed (spec section
4.4 step 3). -/
def transition (s : QPState) (target : QPState) (consistent : Bool) :
    Except VerbsError QPState :=
  if consistent then
    match s, target with
    | .Reset, .Init => .ok .Init
    | .Init, .RTR => .ok .RTR
    | .RTR, .RTS => .ok .RTS
    | _, _ => .error .QueuePairTransitionFailed
  else .error .QueuePairTransitionFailed

/-- Modelled from the spec: driving one queue pair from Reset to RTS.  The
Init and RTS steps use only the fixed tuning constants; the RTR step consumes
the remote address learned in the handshake, and is consistent exactly when
that learned record matches the true identifiers of the remote queue pair.
Returns the sequence of states the queue pair passed through. -/
def bring_up (learned actual : QPAddress) : Except VerbsError (List QPState) :=
  match transition .Reset .Init true with
  | .error e => .error e
  | .ok s1 =>
    match transition s1 .RTR (learned == actual) with
    | .error e => .error e
    | .ok s2 =>
      match transition s2 .RTS true with
      | .error e => .error e
      | .ok s3 => .ok [.Reset, s1, s2, s3]

/-- Modelled from the spec: connect_queue_pairs brings up the queue pair for
each rank in turn; the first failed transition aborts the whole bootstrap, so
no list of usable endpoints is produced.  attrs p q is the remote address
record actually supplied to the RTR transition of the queue pair toward q; in
an uncorrupted run it is the exchanged record. -/
def connect_loop (J : Job) (attrs : Nat → Nat → QPAddress) (p : Nat) :
    List Nat → Except VerbsError (List (List QPState))
  | [] => .ok []
  | q :: qs =>
    match bring_up (attrs p q) (exchange J p q) with
    | .error e => .error e
    | .ok tr =>
      match connect_loop J attrs p qs with
      | .error e => .error e
      | .ok trs => .ok (tr :: trs)

/-- Modelled from the spec: the whole bootstrap of process p, one queue pair
per global rank. -/
def connect_queue_pairs (J : Job) (attrs : Nat → Nat → QPAddress) (p : Nat) :
    Except VerbsError (List (List QPState)) :=
  connect_loop J attrs p (List.range J.n)

/-! ### Operation submission (claim C4) -/

/-- Modelled from the spec: the body of Verbs::post_send is not under src/.
Section 4.6: post_send fails with UnknownRank if the remote rank has no
Endpoint, fails with QueueFull when the send queue of the target queue pair
already holds send_queue_depth undrained operations — a hard capacity limit,
not an auto-growing buffer — and otherwise accepts the work request.  The
submitter state is the per-rank list of accepted, undrained work request
identifiers, oldest first; a failing post returns the state unchanged. -/
def post_send (st : List (List Nat)) (remote_rank : Nat) (wr : Nat) :
    Except VerbsError (List (List Nat)) :=
  match st[remote_rank]? with
  | none => .error .UnknownRank
  | some q =>
      if send_queue_depth ≤ q.length then .error .QueueFull
      else .ok (st.set remote_rank (q ++ [wr]))

/-- Posting a sequence of work requests one after the other without draining,
collecting each outcome (none for accepted, some error for rejected) and the
final submitter state. -/
def post_many (st : List (List Nat)) (remote_rank : Nat) (wrs : List Nat) :
    List (Option VerbsError) × List (List Nat) :=
  match wrs with
  | [] => ([], st)
  | w :: ws =>
    match post_send st remote_rank w with
    | .error e =>
        let r := post_many st remote_rank ws
        (some e :: r.1, r.2)
    | .ok st1 =>
        let r := post_many st1 remote_rank ws
        (none :: r.1, r.2)

/-! ### Memory registration (claim C6) -/

/-- Registration state: the (handle, base, size) triples currently
registered, and the next fresh handle value. -/
structure MRState where
  regs : List (Nat × Nat × Nat)
  next_handle : Nat
deriving DecidableEq, Repr

/-- Modelled from the spec: the body of Verbs::register_memory_region is not
under src/.  Section 4.5: registration fails with RegistrationFailed when the
length is 0, the base is null (modelled as address 0), or the adapter rejects
the pinning request; otherwise it returns a fresh handle and records the
region as registered. -/
def register_memory_region (adapter_accepts : Nat → Nat → Bool) (st : MRState)
    (base size : Nat) : Except VerbsError (Nat × MRState) :=
  if base = 0 ∨ size = 0 then .error .RegistrationFailed
  else if adapter_accepts base size = false then .error .RegistrationFailed
  else .ok (st.next_handle, ⟨st.regs ++ [(st.next_handle, base, size)], st.next_handle + 1⟩)

/-- A posted work request referencing a registration handle is admissible
exactly when that handle is currently registered: this is what makes a
returned handle immediately usable in a subsequent post. -/
def handle_usable (st : MRState) (h : Nat) : Bool :=
  st.regs.any fun r => r.1 == h

/-! ### Resource lifecycle (claims C7 and C8) -/

/-- The hardware resources the lifecycle manages: the device context, the
protection domain, the shared completion queue, and one queue pair per
Endpoint. -/
inductive Resource where
  | context
  | protection_domain
  | completion_queue
  | queue_pair (rank : Nat)
deriving DecidableEq, Repr

/-- Position of each resource kind along the creation sequence of the adapter
boundary (spec section 6): context first, then protection domain, then
completion queue, then the queue pairs. -/
def stage : Resource → Nat
  | .context => 0
  | .protection_domain => 1
  | .completion_queue => 2
  | .queue_pair _ => 3

/-- The creation order of setup for an n process job (spec section 6):
context-open, protection-domain-allocate, completion-queue-create, then
queue-pair-create for every rank. -/
def creation_order (n : Nat) : List Resource :=
  [.context, .protection_domain, .completion_queue] ++ (List.range n).map .queue_pair

/-- Lifecycle state of one Verbs object: which resources it currently holds;
qps lists the ranks whose queue pairs exist. -/
structure VerbsState where
  context_open : Bool
  pd_allocated : Bool
  cq_created : Bool
  qps : List Nat
deriving DecidableEq, Repr

/-- The fully initialized state after a successful bootstrap of an n process
job: the context, protection domain and completion queue exist and one queue
pair per rank exists. -/
def initialized (n : Nat) : VerbsState :=
  ⟨true, true, true, List.range n⟩

/-- Modelled from the spec: the body of Verbs::finalize_device is not under
src/.  Section 4.2: teardown releases, in order, every Endpoint queue pair,
then the completion queue, then the protection domain, then the context —
each only if it is still held — and afterwards holds nothing.  The second
component records the release requests actually issued to the adapter. -/
def finalize_device (s : VerbsState) : VerbsState × List Resource :=
  (⟨false, false, false, []⟩,
    s.qps.map .queue_pair
      ++ (if s.cq_created then [.completion_queue] else [])
      ++ (if s.pd_allocated then [.protection_domain] else [])
      ++ (if s.context_open then [.context] else []))

/-- Verbs::finalize (Verbs.hpp lines 117-119) delegates to finalize_device. -/
def finalize (s : VerbsState) : VerbsState × List Resource :=
  finalize_device s

/-- The destructor (Verbs.hpp lines 122-124) ensures finalize has been
called: it simply calls finalize. -/
def destruct (s : VerbsState) : VerbsState × List Resource :=
  finalize s

/-! ### Rank topology (claim C3) -/

/-- Modelled from the spec: the rank computation lives in the MPIConnection
component, which is not under src/ (Verbs.hpp only includes it).  Section 4.3
and the header comment (Verbs.hpp lines 18-26): processes on the same node
get contiguous global ranks.  The per-node grouping is the list of process
counts per node in node-index order; the processes of node i occupy the
global ranks starting at the number of processes hosted on nodes before i. -/
def nodeOffset (sizes : List Nat) (i : Nat) : Nat :=
  (sizes.take i).sum

/-- Global rank of the process with local rank j on node i. -/
def globalRank (sizes : List Nat) (i j : Nat) : Nat :=
  nodeOffset sizes i + j

/-- All global ranks of the job, enumerated in lexicographic (node index,
local rank) order. -/
def allRanks (sizes : List Nat) : List Nat :=
  (List.range sizes.length).flatMap fun i =>
    (List.range (sizes.getD i 0)).map (globalRank sizes i)

end Verbs

/-! ## Theorems -/

namespace Verbs

/-- C9: every Verbs instance uses the same fixed compile-time queue
capacities: completion-queue depth 256, send-queue depth 16, receive-queue
depth 1, one scatter gather element per operation, and a 16-byte inline-data
threshold.  These are static const members of the class (Verbs.hpp lines
56-61), hence constants of the type, identical for every instance and every
operation. -/
theorem queue_capacity_constants :
    completion_queue_depth = 256 ∧
    send_queue_depth = 16 ∧
    receive_queue_depth = 1 ∧
    scatter_gather_element_count = 1 ∧
    max_inline_data = 16 := by
  decide

/-- C10: constructing Verbs without a device name or port selects the same
device and port as constructing it with mlx4_0 and port 1, for every
MPIConnection and every visible device list; moreover the device the default
construction selects is named mlx4_0 and the port is 1. -/
theorem construct_default_eq_mlx4_0_port_1 (m : MPIConnection) (devices : List Device) :
    construct_default m devices = construct m devices "mlx4_0" 1 ∧
    (∀ d p, construct_default m devices = .ok (d, p) → d.name = "mlx4_0" ∧ p = 1) := by
  refine ⟨rfl, fun d p h => ?_⟩
  unfold construct_default construct select at h
  cases hf : devices.find? (fun d => d.name == "mlx4_0") with
  | none => rw [hf] at h; exact absurd h (by simp)
  | some d0 =>
      rw [hf] at h
      have hname : d0.name = "mlx4_0" := by
        have := List.find?_some hf
        simpa using this
      by_cases hp : d0.ports = 0
      · simp [hp] at h
      · simp [hp] at h
        obtain ⟨h1, h2⟩ := h
        subst h1
        subst h2
        exact ⟨hname, rfl⟩

/-- Witness for C10 at a concrete device list. -/
theorem construct_default_eq_mlx4_0_port_1_witness :
    construct_default ⟨4, [2, 2]⟩ [⟨"mlx5_0", 2⟩, ⟨"mlx4_0", 2⟩] =
      construct ⟨4, [2, 2]⟩ [⟨"mlx5_0", 2⟩, ⟨"mlx4_0", 2⟩] "mlx4_0" 1 ∧
    (⟨"mlx4_0", 2⟩ : Device).name = "mlx4_0" ∧ (1 : Nat) = 1 := by
  have h := construct_default_eq_mlx4_0_port_1 ⟨4, [2, 2]⟩ [⟨"mlx5_0", 2⟩, ⟨"mlx4_0", 2⟩]
  exact ⟨h.1, h.2 ⟨"mlx4_0", 2⟩ 1 rfl |>.1, rfl⟩

/-- C5: for every completion queue content and every bound k, poll consumes at
most k entries, and with an empty completion queue it consumes 0; poll is a
total function of the queue content, so it returns immediately rather than
blocking. -/
theorem poll_consumes_at_most_k (cq : List Outcome) (k : Nat) :
    (poll cq k).1 ≤ k ∧ (poll ([] : List Outcome) k).1 = 0 := by
  constructor
  · simp [poll]
  · simp [poll]

/-! ### Bootstrap lemmas -/

theorem bring_up_self (a : QPAddress) :
    bring_up a a = .ok [QPState.Reset, QPState.Init, QPState.RTR, QPState.RTS] := by
  simp [bring_up, transition]

theorem bring_up_ne {a b : QPAddress} (h : a ≠ b) :
    bring_up a b = .error .QueuePairTransitionFailed := by
  have hb : (a == b) = false := beq_eq_false_iff_ne.mpr h
  simp [bring_up, transition, hb]

theorem connect_loop_ok (J : Job) (attrs : Nat → Nat → QPAddress) (p : Nat)
    (l : List Nat) (h : ∀ q ∈ l, attrs p q = exchange J p q) :
    connect_loop J attrs p l =
      .ok (l.map fun _ => [QPState.Reset, QPState.Init, QPState.RTR, QPState.RTS]) := by
  induction l with
  | nil => rfl
  | cons q qs ih =>
      have hq : attrs p q = exchange J p q := h q (by simp)
      have ihh := ih fun x hx => h x (List.mem_cons_of_mem _ hx)
      simp only [connect_loop, hq, bring_up_self, ihh, List.map_cons]

theorem connect_loop_err (J : Job) (attrs : Nat → Nat → QPAddress) (p : Nat)
    (l : List Nat) (h : ∃ q ∈ l, attrs p q ≠ exchange J p q) :
    connect_loop J attrs p l = .error .QueuePairTransitionFailed := by
  induction l with
  | nil => simp at h
  | cons q qs ih =>
      by_cases hq : attrs p q = exchange J p q
      · obtain ⟨x, hx, hne⟩ := h
        rcases List.mem_cons.mp hx with rfl | hx'
        · exact absurd hq hne
        · have ihh := ih ⟨x, hx', hne⟩
          simp only [connect_loop, hq, bring_up_self, ihh]
      · simp only [connect_loop, bring_up_ne hq]

/-- C1: after connect_queue_pairs completes successfully on every process,
for distinct global ranks p and q the Endpoint stored at index q of the
endpoints vector of process p holds exactly the lid and qp_num pair that q
published toward p during the pairwise handshake, and symmetrically the
Endpoint of q for p holds the pair p published: the exchanged addresses are
mutually consistent. -/
theorem handshake_addresses_mutually_consistent (J : Job) (p q : Nat)
    (hp : p < J.n) (hq : q < J.n) (_hne : p ≠ q) :
    stored J p q = some (published J q p) ∧ stored J q p = some (published J p q) := by
  constructor <;>
    simp [stored, endpointsOf, exchange, List.getElem?_map, List.getElem?_range, hp, hq]

/-- Witness for C1 at a concrete two-process job. -/
theorem handshake_addresses_mutually_consistent_witness :
    stored ⟨2, fun r => 10 + r, fun r s => 100 + 10 * r + s⟩ 0 1 =
      some (published ⟨2, fun r => 10 + r, fun r s => 100 + 10 * r + s⟩ 1 0) ∧
    stored ⟨2, fun r => 10 + r, fun r s => 100 + 10 * r + s⟩ 1 0 =
      some (published ⟨2, fun r => 10 + r, fun r s => 100 + 10 * r + s⟩ 0 1) := by
  exact handshake_addresses_mutually_consistent _ 0 1 (by decide) (by decide) (by decide)

/-- C2: during connect_queue_pairs every queue pair passes through Reset,
Init, RTR (Ready-to-Receive), RTS (Ready-to-Send) in exactly that linear
order; a successful transition is only ever one step along that chain with
consistent attributes, so no state can be skipped; and any inconsistent
learned attribute (for example a wrong remote queue-pair number) makes the
whole bootstrap return QueuePairTransitionFailed, producing no endpoint list
at all, hence no partially connected mesh. -/
theorem queue_pair_state_machine_linear (J : Job) (attrs : Nat → Nat → QPAddress) (p : Nat) :
    ((∀ q, q < J.n → attrs p q = exchange J p q) →
      connect_queue_pairs J attrs p =
        .ok (List.replicate J.n [QPState.Reset, QPState.Init, QPState.RTR, QPState.RTS])) ∧
    ((∃ q, q < J.n ∧ attrs p q ≠ exchange J p q) →
      connect_queue_pairs J attrs p = .error .QueuePairTransitionFailed) ∧
    (∀ s t c u, transition s t c = .ok u →
      c = true ∧ u = t ∧
        ((s = .Reset ∧ t = .Init) ∨ (s = .Init ∧ t = .RTR) ∨ (s = .RTR ∧ t = .RTS))) := by
  refine ⟨fun h => ?_, fun h => ?_, ?_⟩
  · have hl := connect_loop_ok J attrs p (List.range J.n)
      (fun q hq => h q (List.mem_range.mp hq))
    rw [connect_queue_pairs, hl]
    simp
  · obtain ⟨q, hq, hne⟩ := h
    exact connect_loop_err J attrs p _ ⟨q, List.mem_range.mpr hq, hne⟩
  · intro s t c u h
    cases c
    · simp [transition] at h
    · cases s <;> cases t <;> simp_all [transition]

/-- Witness for C2 at a concrete two-process job: an uncorrupted run yields
the full linear trace for both queue pairs, and a corrupted remote address
aborts the bootstrap with QueuePairTransitionFailed. -/
theorem queue_pair_state_machine_linear_witness :
    connect_queue_pairs ⟨2, fun r => 10 + r, fun r s => 100 + 10 * r + s⟩
        (exchange ⟨2, fun r => 10 + r, fun r s => 100 + 10 * r + s⟩) 0 =
      .ok (List.replicate 2 [QPState.Reset, QPState.Init, QPState.RTR, QPState.RTS]) ∧
    connect_queue_pairs ⟨2, fun r => 10 + r, fun r s => 100 + 10 * r + s⟩
        (fun _ _ => ⟨0, 0⟩) 0 =
      .error .QueuePairTransitionFailed := by
  constructor
  · exact (queue_pair_state_machine_linear _ _ 0).1 fun q _ => rfl
  · exact (queue_pair_state_machine_linear _ _ 0).2.1 ⟨1, by decide, by decide⟩

/-- C4: with the send-queue depth configured to 16 (the compile-time constant
of Verbs.hpp line 58), posting 17 sends to the same remote rank without
draining yields 16 accepted posts followed by a QueueFull failure on the
17th, and the failing post corrupts nothing: the final submitter state equals
the state after the first 16 posts, with all 16 accepted work requests still
present in order. -/
theorem seventeenth_post_send_queue_full :
    (post_many [[], []] 1 (List.range 17)).1 =
      List.replicate 16 none ++ [some VerbsError.QueueFull] ∧
    (post_many [[], []] 1 (List.range 17)).2 = [[], List.range 16] ∧
    (post_many [[], []] 1 (List.range 17)).2 = (post_many [[], []] 1 (List.range 16)).2 ∧
    send_queue_depth = 16 := by
  decide

/-- C6: register_memory_region fails with RegistrationFailed when the size is
0 or the base is null, and when the adapter rejects the pinning request; for
a valid accepted region it returns a handle that is immediately usable in a
subsequent post. -/
theorem register_memory_region_contract (adapter_accepts : Nat → Nat → Bool)
    (st : MRState) (base size : Nat) :
    ((base = 0 ∨ size = 0) →
      register_memory_region adapter_accepts st base size = .error .RegistrationFailed) ∧
    (adapter_accepts base size = false →
      register_memory_region adapter_accepts st base size = .error .RegistrationFailed) ∧
    (base ≠ 0 → size ≠ 0 → adapter_accepts base size = true →
      ∃ h st', register_memory_region adapter_accepts st base size = .ok (h, st') ∧
        handle_usable st' h = true) := by
  refine ⟨fun h0 => ?_, fun hrej => ?_, fun hb hs ha => ?_⟩
  · simp [register_memory_region, h0]
  · by_cases h0 : base = 0 ∨ size = 0
    · simp [register_memory_region, h0]
    · simp [register_memory_region, h0, hrej]
  · have h0 : ¬(base = 0 ∨ size = 0) := by
      intro hc
      cases hc with
      | inl hc => exact hb hc
      | inr hc => exact hs hc
    refine ⟨st.next_handle, ⟨st.regs ++ [(st.next_handle, base, size)], st.next_handle + 1⟩, ?_, ?_⟩
    · simp [register_memory_region, h0, ha]
    · simp [handle_usable]

/-- Witness for C6: zero base fails, adapter rejection fails, and a valid
accepted registration yields an immediately usable handle. -/
theorem register_memory_region_contract_witness :
    register_memory_region (fun _ _ => true) ⟨[], 7⟩ 0 4 = .error .RegistrationFailed ∧
    register_memory_region (fun _ _ => false) ⟨[], 7⟩ 1 4 = .error .RegistrationFailed ∧
    (∃ h st', register_memory_region (fun _ _ => true) ⟨[], 7⟩ 1 4 = .ok (h, st') ∧
      handle_usable st' h = true) := by
  refine ⟨?_, ?_, ?_⟩
  · exact (register_memory_region_contract (fun _ _ => true) ⟨[], 7⟩ 0 4).1 (Or.inl rfl)
  · exact (register_memory_region_contract (fun _ _ => false) ⟨[], 7⟩ 1 4).2.1 rfl
  · exact (register_memory_region_contract (fun _ _ => true) ⟨[], 7⟩ 1 4).2.2
      (by decide) (by decide) rfl

/-- C7: teardown of a fully initialized instance releases the hardware
resources in strict reverse order of their creation: the release trace is a
permutation of the reversed creation sequence (every created resource is
released, exactly once), the creation stage is weakly increasing along the
creation order and weakly decreasing along the release trace — every queue
pair is released before the completion queue, the completion queue before the
protection domain, and the protection domain before the context, so no
resource of a later creation stage is released after one of an earlier
stage. -/
theorem finalize_releases_reverse_creation_order (n : Nat) :
    ((finalize_device (initialized n)).2).Perm ((creation_order n).reverse) ∧
    List.Pairwise (fun a b => stage b ≤ stage a) (finalize_device (initialized n)).2 ∧
    List.Pairwise (fun a b => stage a ≤ stage b) (creation_order n) := by
  have htrace : (finalize_device (initialized n)).2 =
      (List.range n).map Resource.queue_pair ++
        [Resource.completion_queue, Resource.protection_domain, Resource.context] := by
    simp [finalize_device, initialized]
  have hcre : (creation_order n).reverse =
      ((List.range n).map Resource.queue_pair).reverse ++
        [Resource.completion_queue, Resource.protection_domain, Resource.context] := by
    simp [creation_order]
  refine ⟨?_, ?_, ?_⟩
  · rw [htrace, hcre]
    exact List.Perm.append ((List.reverse_perm _).symm) (List.Perm.refl _)
  · rw [htrace]
    refine List.pairwise_append.mpr ⟨?_, by decide, ?_⟩
    · exact List.pairwise_map.mpr (List.pairwise_of_forall fun a b => Nat.le_refl _)
    · intro a ha b hb
      obtain ⟨r, _, rfl⟩ := List.mem_map.mp ha
      simp only [List.mem_cons, List.not_mem_nil, or_false] at hb
      rcases hb with rfl | rfl | rfl <;> simp [stage]
  · unfold creation_order
    refine List.pairwise_append.mpr ⟨by decide, ?_, ?_⟩
    · exact List.pairwise_map.mpr (List.pairwise_of_forall fun a b => Nat.le_refl _)
    · intro a ha b hb
      obtain ⟨r, _, rfl⟩ := List.mem_map.mp hb
      simp only [List.mem_cons, List.not_mem_nil, or_false] at ha
      rcases ha with rfl | rfl | rfl <;> simp [stage]

/-- C8: finalize is idempotent: a second invocation — in particular the one
the destructor performs after an explicit call — leaves the object in exactly
the released state of the first invocation and issues no release request to
the adapter, so no resource is ever released twice. -/
theorem finalize_idempotent (s : VerbsState) :
    (finalize (finalize s).1).1 = (finalize s).1 ∧
    finalize (finalize s).1 = ((finalize s).1, []) ∧
    destruct (finalize s).1 = ((finalize s).1, []) := by
  exact ⟨rfl, rfl, rfl⟩

/-! ### Rank topology lemmas -/

theorem nodeOffset_zero (sizes : List Nat) : nodeOffset sizes 0 = 0 := by
  simp [nodeOffset]

theorem nodeOffset_cons_succ (s : Nat) (rest : List Nat) (i : Nat) :
    nodeOffset (s :: rest) (i + 1) = s + nodeOffset rest i := by
  simp [nodeOffset, List.take_succ_cons]

theorem globalRank_cons_succ (s : Nat) (rest : List Nat) (i j : Nat) :
    globalRank (s :: rest) (i + 1) j = s + globalRank rest i j := by
  simp [globalRank, nodeOffset_cons_succ, Nat.add_assoc]

theorem allRanks_cons (s : Nat) (rest : List Nat) :
    allRanks (s :: rest) = List.range s ++ (allRanks rest).map (fun x => s + x) := by
  unfold allRanks
  rw [List.length_cons, List.range_succ_eq_map, List.flatMap_cons, List.flatMap_map]
  have hfun : (fun a : Nat =>
        (List.range ((s :: rest).getD a.succ 0)).map (globalRank (s :: rest) a.succ)) =
      fun i => ((List.range (rest.getD i 0)).map (globalRank rest i)).map (fun x => s + x) := by
    funext i
    rw [List.map_map]
    have hgr : globalRank (s :: rest) (i + 1) = (fun x => s + x) ∘ globalRank rest i := by
      funext j
      simp [globalRank_cons_succ, Function.comp]
    show (List.range ((s :: rest).getD (i + 1) 0)).map (globalRank (s :: rest) (i + 1)) = _
    rw [hgr]
    rfl
  rw [hfun, ← List.map_flatMap]
  congr 1
  have hg0 : globalRank (s :: rest) 0 = fun j => j := by
    funext j
    simp [globalRank, nodeOffset]
  simp [hg0]

theorem allRanks_eq_range : ∀ sizes : List Nat, allRanks sizes = List.range sizes.sum
  | [] => rfl
  | s :: rest => by
      rw [allRanks_cons, allRanks_eq_range rest, List.sum_cons, List.range_add]

theorem nodeOffset_le_succ (sizes : List Nat) (i : Nat) :
    nodeOffset sizes i ≤ nodeOffset sizes (i + 1) := by
  induction sizes generalizing i with
  | nil => simp [nodeOffset]
  | cons s rest ih =>
      cases i with
      | zero => simp [nodeOffset_zero]
      | succ k =>
          rw [nodeOffset_cons_succ, nodeOffset_cons_succ]
          exact Nat.add_le_add_left (ih k) s

theorem nodeOffset_mono (sizes : List Nat) {a b : Nat} (h : a ≤ b) :
    nodeOffset sizes a ≤ nodeOffset sizes b := by
  induction b with
  | zero =>
      have ha : a = 0 := Nat.le_zero.mp h
      subst ha
      exact Nat.le_refl _
  | succ k ih =>
      rcases Nat.lt_or_ge a (k + 1) with hl | hg
      · exact Nat.le_trans (ih (Nat.lt_succ_iff.mp hl)) (nodeOffset_le_succ sizes k)
      · have ha : a = k + 1 := Nat.le_antisymm h hg
        subst ha
        exact Nat.le_refl _

theorem lt_length_of_getD_pos {sizes : List Nat} {i j : Nat} (h : j < sizes.getD i 0) :
    i < sizes.length := by
  by_contra hc
  rw [List.getD_eq_default _ _ (Nat.le_of_not_lt hc)] at h
  exact Nat.not_lt_zero j h

theorem nodeOffset_succ_eq {sizes : List Nat} {i : Nat} (h : i < sizes.length) :
    nodeOffset sizes (i + 1) = nodeOffset sizes i + sizes.getD i 0 := by
  induction sizes generalizing i with
  | nil => simp at h
  | cons s rest ih =>
      cases i with
      | zero => simp [nodeOffset_cons_succ, nodeOffset_zero]
      | succ k =>
          have hk : k < rest.length := by
            simpa using h
          rw [nodeOffset_cons_succ, nodeOffset_cons_succ, ih hk]
          simp [List.getD_cons_succ, Nat.add_assoc]

theorem globalRank_lt_offset_succ {sizes : List Nat} {i j : Nat} (h : j < sizes.getD i 0) :
    globalRank sizes i j < nodeOffset sizes (i + 1) := by
  rw [nodeOffset_succ_eq (lt_length_of_getD_pos h)]
  exact Nat.add_lt_add_left h _

theorem globalRank_lt_of_node_lt {sizes : List Nat} {i j i' j' : Nat}
    (hii : i < i') (hj : j < sizes.getD i 0) :
    globalRank sizes i j < globalRank sizes i' j' :=
  Nat.lt_of_lt_of_le (globalRank_lt_offset_succ hj)
    (Nat.le_trans (nodeOffset_mono sizes hii) (Nat.le_add_right _ j'))

/-- C3: for every per-node grouping, the rank assignment enumerated in
lexicographic (node index, local rank) order is exactly 0, 1, ..., N-1 — in
particular a permutation of 0..N-1; global rank is strictly increasing in
(node index, local rank); and node-contiguity holds: for two processes on the
same node, no process on a different node has a global rank strictly between
theirs. -/
theorem rank_topology_contiguous (sizes : List Nat) :
    allRanks sizes = List.range sizes.sum ∧
    (∀ i j i' j', j < sizes.getD i 0 → j' < sizes.getD i' 0 →
      (i < i' ∨ (i = i' ∧ j < j')) → globalRank sizes i j < globalRank sizes i' j') ∧
    (∀ i j1 j2 i' j', j1 < sizes.getD i 0 → j2 < sizes.getD i 0 → j' < sizes.getD i' 0 →
      i' ≠ i →
      ¬(globalRank sizes i j1 < globalRank sizes i' j' ∧
        globalRank sizes i' j' < globalRank sizes i j2)) := by
  refine ⟨allRanks_eq_range sizes, ?_, ?_⟩
  · rintro i j i' j' hj hj' (hlt | ⟨rfl, hjj⟩)
    · exact globalRank_lt_of_node_lt hlt hj
    · exact Nat.add_lt_add_left hjj _
  · rintro i j1 j2 i' j' hj1 hj2 hj' hne ⟨h1, h2⟩
    rcases Nat.lt_or_ge i' i with hlt | hge
    · exact absurd h1 (Nat.lt_asymm (globalRank_lt_of_node_lt hlt hj'))
    · have hlt : i < i' := Nat.lt_of_le_of_ne hge fun he => hne he.symm
      exact absurd h2 (Nat.lt_asymm (globalRank_lt_of_node_lt hlt hj2))

/-- Witness for C3 at the spec scenario of two nodes with two processes
each: the ranks enumerate 0..3, rank grows along (node, local rank), and no
rank of node 1 lies strictly between two ranks of node 0. -/
theorem rank_topology_contiguous_witness :
    allRanks [2, 2] = List.range (List.sum [2, 2]) ∧
    globalRank [2, 2] 0 1 < globalRank [2, 2] 1 0 ∧
    ¬(globalRank [2, 2] 0 0 < globalRank [2, 2] 1 0 ∧
      globalRank [2, 2] 1 0 < globalRank [2, 2] 0 1) := by
  obtain ⟨h1, h2, h3⟩ := rank_topology_contiguous [2, 2]
  exact ⟨h1, h2 0 1 1 0 (by decide) (by decide) (Or.inl (by decide)),
    h3 0 0 1 1 0 (by decide) (by decide) (by decide) (by decide)⟩

end Verbs
